import Mathlib

/-!
Verification of the dictionary-encoded string column (`segment_store`,
`column/dictionary.rs`) of the repository.

The repository source provides the `Encoding` dispatch wrapper
(`dictionary.rs`) together with its tests; the underlying RLE engine
(`dictionary/rle.rs`), the comparison operator enum `cmp::Operator` and the
`RowIDs` container live outside the provided sources, so the RLE engine is
modelled from the specification (sections 3 and 4 of the spec).  Row-id
result containers are modelled as ascending `List Nat` (the spec requires
results in ascending order and `dst` is cleared on entry, so the container
carries no extra state).
-/

set_option autoImplicit false

/-- Modelled from the spec: the comparison operator enum
`cmp::Operator ∈ {Equal, NotEqual, LT, LTE, GT, GTE}` consumed by
`row_ids_filter`; `cmp.rs` is not among the provided sources. -/
inductive Operator where
  | Equal
  | NotEqual
  | LT
  | LTE
  | GT
  | GTE
deriving DecidableEq, Repr

namespace rle

/-- Modelled from the spec: the strict lexicographic order on strings used
for dictionary sorting (`a < b` on Rust strings); computed on the underlying
character lists. -/
def strLt (a b : String) : Bool := decide (a.data < b.data)

/-- Modelled from the spec: the reflexive lexicographic order `a ≤ b` on
strings. -/
def strLe (a b : String) : Bool := strLt a b || a == b

/-- Modelled from the spec: the error raised by `push_value` when the pushed
value is strictly less than the last appended non-null value
(spec section 7, `OrderViolation`). -/
inductive Error where
  | OrderViolation
deriving DecidableEq, Repr

/-- Modelled from the spec: the state of the run-length dictionary encoder
(`dictionary/rle.rs`, absent from the provided sources).  `entry_index` is
the sorted dictionary of distinct non-null strings — position `p` (1-based)
is the id of the value at that position, id 0 is reserved for NULL (spec
I1/I2).  `run_lengths` is the run stream: consecutive `(id, length)` pairs,
row ids being the implicit prefix sums of run lengths (spec section 3).
The per-id inverted index is determined by I4 (the bitmap for id `k` holds
exactly the row ids at which `k` appears) and is therefore derived below
rather than duplicated in the state. -/
structure RLE where
  entry_index : List String
  run_lengths : List (Nat × Nat)
deriving DecidableEq, Repr

/-- Modelled from the spec: the empty column (`RLE::default()`). -/
def RLE.default : RLE := ⟨[], []⟩

/-- Modelled from the spec: insert a value into the sorted dictionary,
keeping it sorted and duplicate-free (spec I1). -/
def dictInsert : List String → String → List String
  | [], v => [v]
  | w :: ws, v =>
    if strLt v w then v :: w :: ws
    else if v == w then w :: ws
    else w :: dictInsert ws v

/-- Modelled from the spec: non-inserting dictionary lookup
(`lookup(value) → Option<id>`); ids are 1-based positions in the sorted
dictionary (spec section 4.1). -/
def RLE.lookup (c : RLE) (v : String) : Option Nat :=
  if v ∈ c.entry_index then
    some ((c.entry_index.filter (fun w => strLt w v)).length + 1)
  else none

/-- Modelled from the spec: `intern(value) → (id, inserted)` with the
re-index policy of spec section 4.1 — when `v` is inserted at 1-based
position `p`, every existing id `≥ p` in the run stream is incremented
by one. -/
def RLE.intern (c : RLE) (v : String) : RLE × Nat :=
  let p := (c.entry_index.filter (fun w => strLt w v)).length + 1
  if v ∈ c.entry_index then (c, p)
  else
    (⟨dictInsert c.entry_index v,
      c.run_lengths.map (fun q => (if p ≤ q.1 then q.1 + 1 else q.1, q.2))⟩, p)

/-- Modelled from the spec: append a run of `n` rows of id `id` to the run
stream, extending the last run when it has the same id (spec section 4.2 and
invariant I5). -/
def pushRun : List (Nat × Nat) → Nat → Nat → List (Nat × Nat)
  | [], id, n => [(id, n)]
  | [q], id, n => if q.1 = id then [(q.1, q.2 + n)] else [q, (id, n)]
  | q :: q2 :: qs, id, n => q :: pushRun (q2 :: qs) id n

/-- Modelled from the spec: `push_additional(opt, n)` — append `n` rows of
`opt` (value or NULL); interning the value first (spec section 4.2). -/
def RLE.push_additional (c : RLE) (v : Option String) (n : Nat) : RLE :=
  match v with
  | none => ⟨c.entry_index, pushRun c.run_lengths 0 n⟩
  | some s =>
    let ci := c.intern s
    ⟨ci.1.entry_index, pushRun ci.1.run_lengths ci.2 n⟩

/-- Modelled from the spec: `push_null()` — append one NULL row. -/
def RLE.push_none (c : RLE) : RLE := c.push_additional none 1

/-- Modelled from the spec: the full encoded id stream, the expansion of all
runs (`all_encoded_values`, spec section 4.5). -/
def RLE.encodedVec (c : RLE) : List Nat :=
  (c.run_lengths.map (fun q => List.replicate q.2 q.1)).flatten

/-- Modelled from the spec: total row count — the sum of run lengths
(spec I3). -/
def RLE.rowCount (c : RLE) : Nat := c.encodedVec.length

/-- Modelled from the spec: the encoded id at a row, `none` when the row id
is outside the assigned range `[0, rowCount)`. -/
def RLE.encodedAt (c : RLE) (r : Nat) : Option Nat := c.encodedVec.get? r

/-- Modelled from the spec: the ascending list of row ids whose encoded id
satisfies `p` — the sorted union of the inverted-index bitmaps of the ids
accepted by `p` (spec I4: bitmap `k` holds exactly the rows at which `k`
appears). -/
def RLE.rowIdsWhere (c : RLE) (p : Nat → Bool) : List Nat :=
  (List.range c.rowCount).filter (fun r =>
    match c.encodedAt r with
    | some k => p k
    | none => false)

/-- Modelled from the spec: `lower_bound(value)` — the 1-based id of the
first dictionary entry `≥ value` (`m + 1` when there is none); used to
translate comparison predicates into id ranges (spec section 4.1). -/
def RLE.lowerBound (c : RLE) (v : String) : Nat :=
  (c.entry_index.filter (fun w => strLt w v)).length + 1

/-- Modelled from the spec: `upper_bound(value)` — the 1-based id of the
first dictionary entry `> value` (`m + 1` when there is none). -/
def RLE.upperBound (c : RLE) (v : String) : Nat :=
  (c.entry_index.filter (fun w => strLe w v)).length + 1

/-- Modelled from the spec: predicate evaluation
(`row_ids_filter(value, op, dst)`, spec section 4.4): `Equal` returns the
bitmap of the value's id (empty on a dictionary miss); `NotEqual` the union
of the bitmaps of all non-null ids other than the value's id; the range
operators translate the value into an id range via `lower_bound` /
`upper_bound` and return the union of the bitmaps of the ids in range.
NULL (id 0) is excluded from every comparison. -/
def RLE.row_ids_filter (c : RLE) (v : String) (op : Operator) : List Nat :=
  match op with
  | .Equal =>
    match c.lookup v with
    | some id => c.rowIdsWhere (fun k => k == id)
    | none => []
  | .NotEqual =>
    match c.lookup v with
    | some id => c.rowIdsWhere (fun k => !(k == 0) && !(k == id))
    | none => c.rowIdsWhere (fun k => !(k == 0))
  | .LT => c.rowIdsWhere (fun k => 1 ≤ k && k < c.lowerBound v)
  | .LTE => c.rowIdsWhere (fun k => 1 ≤ k && k < c.upperBound v)
  | .GT => c.rowIdsWhere (fun k => c.upperBound v ≤ k)
  | .GTE => c.rowIdsWhere (fun k => c.lowerBound v ≤ k)

/-- Modelled from the spec: `row_ids_null(dst)` — the rows where id = 0
(spec section 4.4). -/
def RLE.row_ids_null (c : RLE) : List Nat :=
  c.rowIdsWhere (fun k => k == 0)

/-- Modelled from the spec: `row_ids_not_null(dst)` — the complement,
restricted to the assigned row-id range (spec section 4.4). -/
def RLE.row_ids_not_null (c : RLE) : List Nat :=
  c.rowIdsWhere (fun k => !(k == 0))

/-- Modelled from the spec: `decode_id(id)` — dictionary lookup, id 0 maps
to `none` (spec section 4.5). -/
def RLE.decode_id (c : RLE) (k : Nat) : Option String :=
  if k = 0 then none else c.entry_index.get? (k - 1)

/-- Modelled from the spec: `value(row_id)` — the logical value at a row,
`none` both for NULL at a valid row and for an out-of-range row id
(spec section 4.5). -/
def RLE.value (c : RLE) (r : Nat) : Option String :=
  match c.encodedAt r with
  | some k => c.decode_id k
  | none => none

/-- Modelled from the spec: `all_values(dst)` — the full decoded column,
NULLs as `none` (spec section 4.5). -/
def RLE.all_values (c : RLE) : List (Option String) :=
  c.encodedVec.map (fun k => c.decode_id k)

/-- Modelled from the spec: `all_encoded_values(dst)` — the full id stream
(spec section 4.5). -/
def RLE.all_encoded_values (c : RLE) : List Nat := c.encodedVec

/-- Modelled from the spec: `dictionary()` — the sorted dictionary view
(spec section 4.5). -/
def RLE.dictionary (c : RLE) : List String := c.entry_index

/-- Modelled from the spec: the decoded value of the most recently appended
non-null run, used by `push_value` for its ordering check
(spec sections 4.2 and 7). -/
def RLE.lastNonNull (c : RLE) : Option String :=
  match (c.run_lengths.filter (fun q => !(q.1 == 0))).getLast? with
  | some q => c.decode_id q.1
  | none => none

/-- Modelled from the spec: `push_value(v)` — append one row with `v`,
failing with `OrderViolation` (and leaving the state unchanged, spec
section 7) when `v` is strictly less than the last appended non-null
value. -/
def RLE.push (c : RLE) (v : String) : RLE × Option Error :=
  match c.lastNonNull with
  | some w =>
    if strLt v w then (c, some Error.OrderViolation)
    else (c.push_additional (some v) 1, none)
  | none => (c.push_additional (some v) 1, none)

/-- Modelled from the spec: `RLE::with_dictionary` — a column created empty
with a pre-seeded dictionary (spec section 3, lifecycle). -/
def RLE.with_dictionary (ss : List String) : RLE :=
  ⟨ss.foldl dictInsert [], []⟩

/-- Modelled from the spec: `min(row_ids)` — the smallest non-null value
among the selected rows: for each non-null id in ascending order, intersect
its bitmap with the selection and return the first non-empty one
(spec section 4.6). -/
def RLE.min (c : RLE) (rowIds : List Nat) : Option String :=
  (List.range c.entry_index.length).findSome? (fun i =>
    if rowIds.any (fun r => c.encodedAt r == some (i + 1)) then
      c.entry_index.get? i
    else none)

/-- Modelled from the spec: `max(row_ids)` — symmetric to `min`, scanning
ids in descending order (spec section 4.6). -/
def RLE.max (c : RLE) (rowIds : List Nat) : Option String :=
  (List.range c.entry_index.length).reverse.findSome? (fun i =>
    if rowIds.any (fun r => c.encodedAt r == some (i + 1)) then
      c.entry_index.get? i
    else none)

/-- Modelled from the spec: `count(row_ids)` — the number of selected rows
whose id ≠ 0, computed as `|row_ids| − |row_ids ∩ bitmap[0]|`
(spec section 4.6). -/
def RLE.count (c : RLE) (rowIds : List Nat) : Nat :=
  rowIds.length - (rowIds.filter (fun r => c.encodedAt r == some 0)).length

/-- Modelled from the spec: `has_non_null_value(row_ids)` — whether the
column holds at least one non-null value at any of the provided row ids,
via the NULL bitmap's complement restricted to the input set
(spec section 4.5); out-of-range row ids lie outside the assigned range and
are never counted. -/
def RLE.has_non_null_value (c : RLE) (rowIds : List Nat) : Bool :=
  rowIds.any (fun r =>
    match c.encodedAt r with
    | some k => !(k == 0)
    | none => false)

end rle

/-- The encoding dispatch wrapper of `dictionary.rs` (present in the
provided sources): a tagged variant with RLE as its only variant. -/
inductive Encoding where
  | RLE (enc : rle.RLE)
deriving DecidableEq, Repr

/-- `Encoding::push` — dispatch of `push` (`dictionary.rs`). -/
def Encoding.push : Encoding → String → Encoding × Option rle.Error
  | .RLE enc, v =>
    let r := enc.push v
    (.RLE r.1, r.2)

/-- `Encoding::push_none` — dispatch of `push_none` (`dictionary.rs`). -/
def Encoding.push_none : Encoding → Encoding
  | .RLE enc => .RLE enc.push_none

/-- `Encoding::push_additional` — dispatch of `push_additional`
(`dictionary.rs`). -/
def Encoding.push_additional : Encoding → Option String → Nat → Encoding
  | .RLE enc, v, n => .RLE (enc.push_additional v n)

/-- `Encoding::row_ids_filter` — dispatch of `row_ids_filter`
(`dictionary.rs`). -/
def Encoding.row_ids_filter : Encoding → String → Operator → List Nat
  | .RLE enc, v, op => enc.row_ids_filter v op

/-- `Encoding::row_ids_null` — dispatch of `row_ids_null`
(`dictionary.rs`). -/
def Encoding.row_ids_null : Encoding → List Nat
  | .RLE enc => enc.row_ids_null

/-- `Encoding::row_ids_not_null` — dispatch of `row_ids_not_null`
(`dictionary.rs`). -/
def Encoding.row_ids_not_null : Encoding → List Nat
  | .RLE enc => enc.row_ids_not_null

/-- `Encoding::row_ids_is_null` — faithful to `dictionary.rs` lines 85–89:
the `is_null` argument is ignored and the dispatch always calls
`enc.row_ids_null(dst)`. -/
def Encoding.row_ids_is_null : Encoding → Bool → List Nat
  | .RLE enc, _ => enc.row_ids_null

/-- `Encoding::dictionary` — dispatch of `dictionary` (`dictionary.rs`). -/
def Encoding.dictionary : Encoding → List String
  | .RLE enc => enc.dictionary

/-- `Encoding::value` — dispatch of `value` (`dictionary.rs`). -/
def Encoding.value : Encoding → Nat → Option String
  | .RLE enc, r => enc.value r

/-- `Encoding::all_values` — dispatch of `all_values` (`dictionary.rs`). -/
def Encoding.all_values : Encoding → List (Option String)
  | .RLE enc => enc.all_values

/-- `Encoding::all_encoded_values` — dispatch of `all_encoded_values`
(`dictionary.rs`). -/
def Encoding.all_encoded_values : Encoding → List Nat
  | .RLE enc => enc.all_encoded_values

/-- `Encoding::min` — dispatch of `min` (`dictionary.rs`). -/
def Encoding.min : Encoding → List Nat → Option String
  | .RLE enc, rowIds => enc.min rowIds

/-- `Encoding::max` — dispatch of `max` (`dictionary.rs`). -/
def Encoding.max : Encoding → List Nat → Option String
  | .RLE enc, rowIds => enc.max rowIds

/-- `Encoding::count` — dispatch of `count` (`dictionary.rs`). -/
def Encoding.count : Encoding → List Nat → Nat
  | .RLE enc, rowIds => enc.count rowIds

/-- `Encoding::has_non_null_value` — dispatch of `has_non_null_value`
(`dictionary.rs`). -/
def Encoding.has_non_null_value : Encoding → List Nat → Bool
  | .RLE enc, rowIds => enc.has_non_null_value rowIds

/-- `Encoding::num_rows` — the total number of rows in the column (the sum
of run lengths, spec I3). -/
def Encoding.rowCount : Encoding → Nat
  | .RLE enc => enc.rowCount

namespace rle

/-- Modelled from the spec: a column built from a pre-seeded dictionary by a
valid sequence of `push_additional` appends (spec section 3, lifecycle). -/
def build (seed : List String) (ops : List (Option String × Nat)) : RLE :=
  ops.foldl (fun c q => c.push_additional q.1 q.2) (RLE.with_dictionary seed)

/-- Modelled from the spec: a monotonically increasing row-id slice — the
required input shape for gather and aggregation operations (spec glossary,
"monotonic row-id set"). -/
def ascending : List Nat → Bool
  | [] => true
  | [_] => true
  | a :: b :: rest => decide (a < b) && ascending (b :: rest)

/-- Well-formedness of a column state: every id appearing in the run stream
is at most the dictionary length (spec I2/I4: ids are 1-based dictionary
positions, with 0 for NULL).  Every column built by appends satisfies it. -/
def WF (c : RLE) : Prop := ∀ q ∈ c.run_lengths, q.1 ≤ c.entry_index.length

end rle

/-- The column of spec scenario 1 (test `row_ids_filter_equal`):
`("east",3), ("north",1), ("east",5), ("south",2), NULL×1`. -/
def colC1 : Encoding :=
  (Encoding.RLE rle.RLE.default).push_additional (some "east") 3
    |>.push_additional (some "north") 1
    |>.push_additional (some "east") 5
    |>.push_additional (some "south") 2
    |>.push_none

/-- The column of spec scenario 2 (test `row_ids_filter_cmp`):
`("east",3), ("north",1), ("east",5), ("south",2), ("west",1), ("north",1),
NULL×1, ("west",5)`. -/
def colC2 : Encoding :=
  (Encoding.RLE rle.RLE.default).push_additional (some "east") 3
    |>.push_additional (some "north") 1
    |>.push_additional (some "east") 5
    |>.push_additional (some "south") 2
    |>.push_additional (some "west") 1
    |>.push_additional (some "north") 1
    |>.push_none
    |>.push_additional (some "west") 5

/-- The column of test `row_ids_filter_equal_no_null`:
`("east",2), ("west",1)`, no NULLs. -/
def colC3 : rle.RLE :=
  (rle.RLE.default.push_additional (some "east") 2).push_additional (some "west") 1

/-- The column obtained from the empty column by `push("b")`. -/
def colC4 : rle.RLE := (rle.RLE.default.push "b").1

/-- The column of spec scenario 4 (test `push_additional_first_run_length`):
dictionary pre-seeded with `{"hello","world"}`, then
`push_additional("world",1); push_additional("hello",1)`. -/
def colC5 : Encoding :=
  (Encoding.RLE (rle.RLE.with_dictionary ["world", "hello"])).push_additional
      (some "world") 1
    |>.push_additional (some "hello") 1

/-- The column of spec scenario 5 (tests `min`, `max`, `count`):
`("east",3), NULL×2, ("north",2)`. -/
def colC6 : Encoding :=
  (Encoding.RLE rle.RLE.default).push_additional (some "east") 3
    |>.push_additional none 2
    |>.push_additional (some "north") 2

/-- A small mixed column used to instantiate the partition property:
`("east",1), NULL×1, ("west",1)`. -/
def colC7 : rle.RLE :=
  ((rle.RLE.default.push_additional (some "east") 1).push_additional none 1).push_additional
    (some "west") 1

/-- The column of test `has_non_null_value`:
`("east",3), ("north",1), ("east",5), ("south",2), NULL×1` — 12 rows with
the NULL at row 11. -/
def colC10 : rle.RLE :=
  (rle.RLE.default.push_additional (some "east") 3).push_additional (some "north") 1
    |>.push_additional (some "east") 5
    |>.push_additional (some "south") 2
    |>.push_none

namespace rle

theorem strLt_self (v : String) : strLt v v = false := by
  simp [strLt]

theorem encodedAt_eq_none_iff {c : RLE} {r : Nat} :
    c.encodedAt r = none ↔ c.rowCount ≤ r :=
  List.get?_eq_none

theorem lt_rowCount_of_encodedAt {c : RLE} {r k : Nat}
    (h : c.encodedAt r = some k) : r < c.rowCount := by
  rcases List.get?_eq_some.mp h with ⟨h1, _⟩
  exact h1

theorem exists_encodedAt_of_lt {c : RLE} {r : Nat} (h : r < c.rowCount) :
    ∃ k, c.encodedAt r = some k := by
  cases hk : c.encodedAt r with
  | none => exact absurd (encodedAt_eq_none_iff.mp hk) (Nat.not_le.mpr h)
  | some k => exact ⟨k, rfl⟩

theorem mem_rowIdsWhere {c : RLE} {p : Nat → Bool} {r : Nat} :
    r ∈ c.rowIdsWhere p ↔ ∃ k, c.encodedAt r = some k ∧ p k = true := by
  unfold RLE.rowIdsWhere
  rw [List.mem_filter, List.mem_range]
  cases hk : c.encodedAt r with
  | none => simp [hk]
  | some k =>
    have hr := lt_rowCount_of_encodedAt hk
    simp [hk, hr]

theorem lookup_ne_zero {c : RLE} {v : String} {id : Nat}
    (h : c.lookup v = some id) : id ≠ 0 := by
  unfold RLE.lookup at h
  by_cases hv : v ∈ c.entry_index
  · rw [if_pos hv] at h
    injection h with h
    omega
  · rw [if_neg hv] at h
    exact absurd h (Option.noConfusion)

end rle

namespace rle

theorem mem_pushRun :
    ∀ (rs : List (Nat × Nat)) (id n : Nat) (q : Nat × Nat),
      q ∈ pushRun rs id n → q.1 = id ∨ ∃ m, (q.1, m) ∈ rs := by
  intro rs
  induction rs with
  | nil =>
    intro id n q h
    simp [pushRun] at h
    left
    rw [h]
  | cons hd tl ih =>
    intro id n q h
    cases tl with
    | nil =>
      by_cases he : hd.1 = id
      · rw [pushRun, if_pos he] at h
        simp at h
        left
        rw [h, he]
      · rw [pushRun, if_neg he] at h
        rcases List.mem_cons.mp h with h1 | h1
        · right
          exact ⟨q.2, by rw [h1]; simp⟩
        · simp at h1
          left
          rw [h1]
    | cons hd2 tl2 =>
      rw [pushRun] at h
      rcases List.mem_cons.mp h with h1 | h1
      · right
        exact ⟨q.2, by rw [h1]; simp⟩
      · rcases ih id n q h1 with h2 | ⟨m, hm⟩
        · exact Or.inl h2
        · exact Or.inr ⟨m, List.mem_cons_of_mem _ hm⟩

theorem dictInsert_length {l : List String} {v : String} (h : v ∉ l) :
    (dictInsert l v).length = l.length + 1 := by
  induction l with
  | nil => rfl
  | cons w ws ih =>
    rw [dictInsert]
    by_cases h1 : strLt v w = true
    · rw [if_pos h1]
      simp
    · rw [if_neg h1]
      by_cases h2 : (v == w) = true
      · exact absurd (by simp at h2; simp [h2]) h
      · rw [if_neg h2]
        have hvw : v ∉ ws := fun hm => h (List.mem_cons_of_mem _ hm)
        simp [ih hvw]

theorem filter_length_lt_of_mem {l : List String} {v : String} (h : v ∈ l) :
    (l.filter (fun w => strLt w v)).length < l.length :=
  List.length_filter_lt_length_iff_exists.mpr ⟨v, h, by simp [strLt]⟩

theorem WF_push_additional {c : RLE} (hc : WF c) (v : Option String) (n : Nat) :
    WF (c.push_additional v n) := by
  cases v with
  | none =>
    intro q hq
    rw [RLE.push_additional] at hq
    rcases mem_pushRun _ _ _ _ hq with h1 | ⟨m, hm⟩
    · rw [h1]
      exact Nat.zero_le _
    · exact hc (q.1, m) hm
  | some s =>
    intro q hq
    by_cases hs : s ∈ c.entry_index
    · simp only [RLE.push_additional, RLE.intern, if_pos hs] at hq ⊢
      rcases mem_pushRun _ _ _ _ hq with h1 | ⟨m, hm⟩
      · rw [h1]
        exact filter_length_lt_of_mem hs
      · exact hc (q.1, m) hm
    · simp only [RLE.push_additional, RLE.intern, if_neg hs] at hq ⊢
      rw [dictInsert_length hs]
      rcases mem_pushRun _ _ _ _ hq with h1 | ⟨m, hm⟩
      · rw [h1]
        have := List.length_filter_le (fun w => strLt w s) c.entry_index
        omega
      · rcases List.mem_map.mp hm with ⟨orig, horig, heq⟩
        have hb := hc orig horig
        have h1 := congrArg Prod.fst heq
        simp only [Prod.fst] at h1
        rw [← h1]
        split <;> omega

theorem WF_with_dictionary (seed : List String) : WF (RLE.with_dictionary seed) := by
  intro q hq
  exact absurd hq (List.not_mem_nil q)

theorem WF_build (seed : List String) (ops : List (Option String × Nat)) :
    WF (build seed ops) := by
  rw [build]
  have h : ∀ (os : List (Option String × Nat)) (c : RLE), WF c →
      WF (os.foldl (fun c q => c.push_additional q.1 q.2) c) := by
    intro os
    induction os with
    | nil => intro c hc; exact hc
    | cons o os ih =>
      intro c hc
      exact ih _ (WF_push_additional hc o.1 o.2)
  exact h ops _ (WF_with_dictionary seed)

theorem encodedAt_le_of_WF {c : RLE} (hc : WF c) {r k : Nat}
    (h : c.encodedAt r = some k) : k ≤ c.entry_index.length := by
  have hk : k ∈ c.encodedVec := List.get?_mem h
  rw [RLE.encodedVec] at hk
  rcases List.mem_flatten.mp hk with ⟨l, hl, hkl⟩
  rcases List.mem_map.mp hl with ⟨q, hq, rfl⟩
  rw [List.eq_of_mem_replicate hkl]
  exact hc q hq

end rle

/-- C1: after appending `("east",3), ("north",1), ("east",5), ("south",2),
NULL×1` to an empty column, `dictionary()` is `["east","north","south"]`,
`row_ids_filter("east", Equal)` is `[0,1,2,4,5,6,7,8]`,
`row_ids_filter("east", NotEqual)` is `[3,9,10]` and `row_ids_null()` is
`[11]`, all in ascending order. -/
theorem claim_C1 :
    colC1.dictionary = ["east", "north", "south"] ∧
    colC1.row_ids_filter "east" .Equal = [0, 1, 2, 4, 5, 6, 7, 8] ∧
    colC1.row_ids_filter "east" .NotEqual = [3, 9, 10] ∧
    colC1.row_ids_null = [11] := by
  decide

/-- C3: for every column state and every comparison value `v` absent from
the dictionary, `row_ids_filter(v, NotEqual, ·)` returns exactly the set of
non-null row ids (`row_ids_not_null`, the complement of the NULL bitmap
within the assigned row range), never including a NULL row. -/
theorem claim_C3 (c : rle.RLE) (v : String) (h : v ∉ c.entry_index) :
    c.row_ids_filter v .NotEqual = c.row_ids_not_null := by
  have hl : c.lookup v = none := by
    rw [rle.RLE.lookup, if_neg h]
  simp only [rle.RLE.row_ids_filter, hl, rle.RLE.row_ids_not_null]

/-- C3 witness: on the column `("east",2), ("west",1)` the `NotEqual` filter
for the absent value `"abba"` equals the non-null row-id set. -/
theorem claim_C3_witness :
    colC3.row_ids_filter "abba" .NotEqual = colC3.row_ids_not_null :=
  claim_C3 colC3 "abba" (by decide)

/-- C4: for every column state whose last appended non-null value is `w`,
`push_value` with a value strictly below `w` fails with `OrderViolation`
and returns the column state unchanged. -/
theorem claim_C4 (c : rle.RLE) (v w : String) (h1 : c.lastNonNull = some w)
    (h2 : rle.strLt v w = true) :
    c.push v = (c, some rle.Error.OrderViolation) := by
  rw [rle.RLE.push, h1]
  simp [h2]

/-- C4 witness: `push("b")` followed by `push("a")` fails with
`OrderViolation` and the state after the failing call is the state after
just `push("b")`. -/
theorem claim_C4_witness :
    colC4.push "a" = (colC4, some rle.Error.OrderViolation) :=
  claim_C4 colC4 "a" "b" (by decide) (by decide)

/-- C5: with the dictionary pre-seeded to `{"hello","world"}` and rows
`push_additional("world",1); push_additional("hello",1)`,
`all_encoded_values()` is `[2,1]` and `all_values()` is
`["world","hello"]`: ids follow dictionary order, rows follow append
order. -/
theorem claim_C5 :
    colC5.all_encoded_values = [2, 1] ∧
    colC5.all_values = [some "world", some "hello"] := by
  decide

/-- C6: on the column `("east",3), NULL×2, ("north",2)`: `min` over `{3}`
and `{3,4}` is `none` (all-NULL selections), `min` over `[0,7)` is
`"east"`, `max` over `[0,7)` is `"north"`, `count` over `[0,7)` is `5` and
`count` over `{3,4}` is `0`. -/
theorem claim_C6 :
    colC6.min [3] = none ∧
    colC6.min [3, 4] = none ∧
    colC6.min (List.range 7) = some "east" ∧
    colC6.max (List.range 7) = some "north" ∧
    colC6.count (List.range 7) = 5 ∧
    colC6.count [3, 4] = 0 := by
  decide

/-- C8: for every column and both boolean values of the `is_null` argument,
`row_ids_is_null(is_null, dst)` returns the same result as
`row_ids_null(dst)` — the dispatch in `dictionary.rs` ignores `is_null`
and always calls `row_ids_null`. -/
theorem claim_C8 (e : Encoding) (is_null : Bool) :
    e.row_ids_is_null is_null = e.row_ids_null := by
  cases e
  rfl

/-- C10: for every column state and every monotonically increasing row-id
slice whose entries are all NULL rows or out of the assigned row range,
`has_non_null_value` returns `false`. -/
theorem claim_C10 (c : rle.RLE) (rowIds : List Nat)
    (_hmono : rle.ascending rowIds = true)
    (h : ∀ r ∈ rowIds, c.encodedAt r = some 0 ∨ c.rowCount ≤ r) :
    c.has_non_null_value rowIds = false := by
  rw [rle.RLE.has_non_null_value, List.any_eq_false]
  intro r hr
  rcases h r hr with h0 | hoor
  · simp [h0]
  · simp [rle.encodedAt_eq_none_iff.mpr hoor]

/-- C10 witness: on the 12-row column ending with a NULL at row 11,
`has_non_null_value([11,12,100])` is `false` (rows 12 and 100 are out of
range). -/
theorem claim_C10_witness :
    colC10.has_non_null_value [11, 12, 100] = false :=
  claim_C10 colC10 [11, 12, 100] (by decide) (by decide)

namespace rle

theorem mem_row_ids_null {c : RLE} {r : Nat} :
    r ∈ c.row_ids_null ↔ c.encodedAt r = some 0 := by
  rw [RLE.row_ids_null, mem_rowIdsWhere]
  constructor
  · rintro ⟨k, hk, hp⟩
    simp at hp
    rw [hp] at hk
    exact hk
  · intro h
    exact ⟨0, h, by simp⟩

theorem mem_filter_equal {c : RLE} {v : String} {r : Nat} :
    r ∈ c.row_ids_filter v .Equal ↔
      ∃ k, c.encodedAt r = some k ∧ c.lookup v = some k := by
  cases hL : c.lookup v with
  | none =>
    simp only [RLE.row_ids_filter, hL]
    simp
  | some id =>
    simp only [RLE.row_ids_filter, hL, mem_rowIdsWhere]
    constructor
    · rintro ⟨k, hk, hp⟩
      simp at hp
      exact ⟨k, hk, by rw [hp]⟩
    · rintro ⟨k, hk, hkl⟩
      injection hkl with h2
      exact ⟨k, hk, by simp [h2]⟩

theorem mem_filter_notEqual {c : RLE} {v : String} {r : Nat} :
    r ∈ c.row_ids_filter v .NotEqual ↔
      ∃ k, c.encodedAt r = some k ∧ k ≠ 0 ∧ c.lookup v ≠ some k := by
  cases hL : c.lookup v with
  | none =>
    simp only [RLE.row_ids_filter, hL, mem_rowIdsWhere]
    constructor
    · rintro ⟨k, hk, hp⟩
      simp at hp
      exact ⟨k, hk, hp, by simp⟩
    · rintro ⟨k, hk, h0, _⟩
      exact ⟨k, hk, by simp [h0]⟩
  | some id =>
    simp only [RLE.row_ids_filter, hL, mem_rowIdsWhere]
    constructor
    · rintro ⟨k, hk, hp⟩
      simp at hp
      refine ⟨k, hk, hp.1, ?_⟩
      intro hcon
      injection hcon with h2
      exact hp.2 h2.symm
    · rintro ⟨k, hk, h0, hne⟩
      have hkid : k ≠ id := fun h => hne (by rw [h])
      exact ⟨k, hk, by simp [h0, hkid]⟩

end rle

/-- C2: the range operators translate the comparison value into an id range
via `lower_bound`/`upper_bound` and return the union of the bitmaps in that
range with NULL rows excluded, even for values absent from the dictionary:
on the column `("east",3), ("north",1), ("east",5), ("south",2),
("west",1), ("north",1), NULL×1, ("west",5)`,
`row_ids_filter("north", GT) = [9,10,11,14,15,16,17,18]` and
`row_ids_filter("east1", GTE) = [3,9,10,11,12,14,15,16,17,18]`; moreover
for every column, value and operator among `LT, LTE, GT, GTE` the result
never contains a NULL row. -/
theorem claim_C2 :
    (colC2.row_ids_filter "north" .GT = [9, 10, 11, 14, 15, 16, 17, 18] ∧
     colC2.row_ids_filter "east1" .GTE =
       [3, 9, 10, 11, 12, 14, 15, 16, 17, 18]) ∧
    (∀ (c : rle.RLE) (v : String) (op : Operator),
      op = .LT ∨ op = .LTE ∨ op = .GT ∨ op = .GTE →
      ∀ r ∈ c.row_ids_filter v op, ¬ c.encodedAt r = some 0) := by
  constructor
  · exact ⟨by decide, by decide⟩
  · have hub : ∀ (c : rle.RLE) (v : String), 1 ≤ c.upperBound v := by
      intro c v
      rw [rle.RLE.upperBound]
      omega
    have hlb : ∀ (c : rle.RLE) (v : String), 1 ≤ c.lowerBound v := by
      intro c v
      rw [rle.RLE.lowerBound]
      omega
    rintro c v op (rfl | rfl | rfl | rfl) r hr
    · rcases rle.mem_rowIdsWhere.mp hr with ⟨k, hk, hp⟩
      simp only [Bool.and_eq_true, decide_eq_true_eq] at hp
      rw [hk]
      simp
      omega
    · rcases rle.mem_rowIdsWhere.mp hr with ⟨k, hk, hp⟩
      simp only [Bool.and_eq_true, decide_eq_true_eq] at hp
      rw [hk]
      simp
      omega
    · rcases rle.mem_rowIdsWhere.mp hr with ⟨k, hk, hp⟩
      simp only [decide_eq_true_eq] at hp
      have h1 := hub c v
      rw [hk]
      simp
      omega
    · rcases rle.mem_rowIdsWhere.mp hr with ⟨k, hk, hp⟩
      simp only [decide_eq_true_eq] at hp
      have h1 := hlb c v
      rw [hk]
      simp
      omega

/-- C2 witness: on the one-row column `("east",1)` the `GTE "a"` filter
contains row 0, which is not a NULL row. -/
theorem claim_C2_witness :
    ¬ (rle.RLE.default.push_additional (some "east") 1).encodedAt 0 = some 0 :=
  claim_C2.2 (rle.RLE.default.push_additional (some "east") 1) "a" .GTE
    (Or.inr (Or.inr (Or.inr rfl))) 0 (by decide)

/-- C7: for every column state, every value `v` and every row id `r`, the
three sets `row_ids_filter(v, Equal, ·)`, `row_ids_filter(v, NotEqual, ·)`
and `row_ids_null(·)` are pairwise disjoint and their union is exactly the
assigned row-id range `[0, rowCount)`. -/
theorem claim_C7 (c : rle.RLE) (v : String) (r : Nat) :
    ((r ∈ c.row_ids_filter v .Equal ∨ r ∈ c.row_ids_filter v .NotEqual ∨
        r ∈ c.row_ids_null) ↔ r < c.rowCount) ∧
    ¬(r ∈ c.row_ids_filter v .Equal ∧ r ∈ c.row_ids_filter v .NotEqual) ∧
    ¬(r ∈ c.row_ids_filter v .Equal ∧ r ∈ c.row_ids_null) ∧
    ¬(r ∈ c.row_ids_filter v .NotEqual ∧ r ∈ c.row_ids_null) := by
  refine ⟨⟨?_, ?_⟩, ?_, ?_, ?_⟩
  · rintro (h | h | h)
    · rcases rle.mem_filter_equal.mp h with ⟨k, hk, _⟩
      exact rle.lt_rowCount_of_encodedAt hk
    · rcases rle.mem_filter_notEqual.mp h with ⟨k, hk, _, _⟩
      exact rle.lt_rowCount_of_encodedAt hk
    · exact rle.lt_rowCount_of_encodedAt (rle.mem_row_ids_null.mp h)
  · intro hr
    obtain ⟨k, hk⟩ := rle.exists_encodedAt_of_lt hr
    by_cases h0 : k = 0
    · exact Or.inr (Or.inr (rle.mem_row_ids_null.mpr (h0 ▸ hk)))
    · by_cases hkl : c.lookup v = some k
      · exact Or.inl (rle.mem_filter_equal.mpr ⟨k, hk, hkl⟩)
      · exact Or.inr (Or.inl (rle.mem_filter_notEqual.mpr ⟨k, hk, h0, hkl⟩))
  · rintro ⟨h1, h2⟩
    rcases rle.mem_filter_equal.mp h1 with ⟨k1, hk1, hl1⟩
    rcases rle.mem_filter_notEqual.mp h2 with ⟨k2, hk2, _, hl2⟩
    rw [hk1] at hk2
    injection hk2 with hkk
    exact hl2 (hkk ▸ hl1)
  · rintro ⟨h1, h2⟩
    rcases rle.mem_filter_equal.mp h1 with ⟨k1, hk1, hl1⟩
    have h0 := rle.mem_row_ids_null.mp h2
    rw [hk1] at h0
    injection h0 with hkk
    exact rle.lookup_ne_zero (hkk ▸ hl1) rfl
  · rintro ⟨h1, h2⟩
    rcases rle.mem_filter_notEqual.mp h1 with ⟨k1, hk1, h0, _⟩
    have hn := rle.mem_row_ids_null.mp h2
    rw [hk1] at hn
    injection hn with hkk
    exact h0 hkk

/-- C7 witness: on the column `("east",1), NULL×1, ("west",1)` row 0
belongs to one of the three sets for the value `"east"`. -/
theorem claim_C7_witness :
    0 ∈ colC7.row_ids_filter "east" .Equal ∨
    0 ∈ colC7.row_ids_filter "east" .NotEqual ∨
    0 ∈ colC7.row_ids_null :=
  (claim_C7 colC7 "east" 0).1.mpr (by decide)

/-- C9: for every column built by a valid sequence of appends (from any
pre-seeded dictionary) and every row id `r`, `value(r)` is `none` exactly
when `r` is out of the assigned range or the row holds NULL; it is total
(never panics), and for an in-range non-null row with encoded id `k + 1` it
returns `some` of the dictionary string at position `k`. -/
theorem claim_C9 (seed : List String) (ops : List (Option String × Nat)) (r : Nat) :
    ((rle.build seed ops).value r = none ↔
      (rle.build seed ops).rowCount ≤ r ∨
        (rle.build seed ops).encodedAt r = some 0) ∧
    (∀ k, (rle.build seed ops).encodedAt r = some (k + 1) →
      ∃ s, (rle.build seed ops).value r = some s ∧
        (rle.build seed ops).entry_index.get? k = some s) := by
  have hWF := rle.WF_build seed ops
  constructor
  · constructor
    · intro hv
      by_cases hr : (rle.build seed ops).rowCount ≤ r
      · exact Or.inl hr
      · obtain ⟨k, hk⟩ := rle.exists_encodedAt_of_lt (Nat.not_le.mp hr)
        refine Or.inr ?_
        by_cases h0 : k = 0
        · exact h0 ▸ hk
        · exfalso
          have hle := rle.encodedAt_le_of_WF hWF hk
          simp only [rle.RLE.value, hk, rle.RLE.decode_id, if_neg h0] at hv
          have := List.get?_eq_none.mp hv
          omega
    · intro h
      rcases h with hr | h0
      · simp only [rle.RLE.value, rle.encodedAt_eq_none_iff.mpr hr]
      · simp [rle.RLE.value, h0, rle.RLE.decode_id]
  · intro k hk
    have hle := rle.encodedAt_le_of_WF hWF hk
    have hklt : k < (rle.build seed ops).entry_index.length := by omega
    refine ⟨(rle.build seed ops).entry_index.get ⟨k, hklt⟩, ?_, ?_⟩
    · simp only [rle.RLE.value, hk, rle.RLE.decode_id,
        if_neg (Nat.succ_ne_zero k)]
      simp [List.get?_eq_get hklt]
    · exact List.get?_eq_get hklt

/-- C9 witness: on the column built from `("east",1), NULL×1`, row 0 holds
the in-range non-null value `"east"`, returned as `some` of the dictionary
entry at position 0. -/
theorem claim_C9_witness :
    ∃ s, (rle.build [] [(some "east", 1), (none, 1)]).value 0 = some s ∧
      (rle.build [] [(some "east", 1), (none, 1)]).entry_index.get? 0 = some s :=
  (claim_C9 [] [(some "east", 1), (none, 1)] 0).2 0 (by decide)
